import Mathlib

/-!
# Verification of the l0_wb order pipeline core

A shallow embedding of the order ingestion core of the `l0_wb` repository:
the order aggregate and validator, the transactional batch persistence of
`internal/service/order_service.go`, the in-memory cache of
`internal/cache/cache.go` (with its startup hydration), and the consumer
loop of `internal/kafka/consumer.go`.

Modelling conventions:
* Go `time.Time` is modelled as a `Nat`; the zero value is `0`, so
  `t.IsZero()` becomes `t = 0`.  `time.Now().UTC()` becomes an explicit
  `now : Nat` parameter.
* Go pointers that may be `nil` become `Option`.
* The database is modelled as four tables of rows (`orders`, `deliveries`,
  `payments`, `items`); a transaction is the list of rows inserted so far,
  applied to the database only at commit, and discarded on rollback.
* `tx.Exec` failures (connection loss, constraint violation, ...) are
  modelled by an oracle `fails : Row → Bool` deciding which individual
  insert statements fail.  `Begin`/`Commit` infrastructure failures are
  environment behaviour outside the embedded logic.
* Fallible Go functions returning `error` become `Except String` or an
  `Option String` error component (`none` = the Go `nil` error).
-/

namespace L0wb

/-- Model of `model.Delivery`: recipient data, one-to-one with an order. -/
structure Delivery where
  name : String
  phone : String
  zip : String
  city : String
  address : String
  region : String
  email : String
  deriving Repr, DecidableEq

/-- Model of `model.Payment`: payment data, one-to-one with an order. -/
structure Payment where
  transaction : String
  requestID : String
  currency : String
  provider : String
  amount : Int
  paymentDt : Int
  bank : String
  deliveryCost : Int
  goodsTotal : Int
  customFee : Int
  deriving Repr, DecidableEq

/-- Model of `model.Item`: one purchased line, many-to-one with an order. -/
structure Item where
  chrtID : Int
  trackNumber : String
  price : Int
  rid : String
  name : String
  sale : Int
  size : String
  totalPrice : Int
  nmID : Int
  brand : String
  status : Int
  deriving Repr, DecidableEq

/-- Model of `model.Order`: the root aggregate, with the fields the repository and
service layer read and write (`order_uid`, header columns, and the owned
delivery, payment and items).  `dateCreated` is a `Nat` timestamp whose Go
zero value is `0`. -/
structure Order where
  orderUID : String
  trackNumber : String
  entry : String
  delivery : Delivery
  payment : Payment
  items : List Item
  locale : String
  internalSignature : String
  customerID : String
  deliveryService : String
  shardkey : String
  smID : Int
  dateCreated : Nat
  oofShard : String
  deriving Repr, DecidableEq

/-- Model of `orderService.validateOrder`: returns the error for an invalid order and
`none` for a valid one.  The Go receiver takes a possibly-nil pointer, hence
the `Option Order` argument. -/
def validateOrder : Option Order → Option String
  | none => some "order is nil"
  | some o =>
    if o.orderUID = "" then some "order_uid is empty"
    else if o.items.length = 0 then some "order has no items"
    else if o.delivery.name = "" ∨ o.delivery.phone = "" then
      some "invalid delivery data"
    else none

/-- The `DateCreated` normalization step of `SaveBatch`: if the order's
`DateCreated` is the zero timestamp it is set to the current UTC time
(`now`), otherwise the order is left unchanged. -/
def normalizeDate (now : Nat) (o : Order) : Order :=
  if o.dateCreated = 0 then { o with dateCreated := now } else o

/-- A row of the `orders` table: the header columns inserted by
`ordersRepoInsertTx`. -/
structure OrderHeaderRow where
  orderUID : String
  trackNumber : String
  entry : String
  locale : String
  internalSignature : String
  customerID : String
  deliveryService : String
  shardkey : String
  smID : Int
  dateCreated : Nat
  oofShard : String
  deriving Repr, DecidableEq

/-- The header row built from an order by `ordersRepoInsertTx`. -/
def headerRow (o : Order) : OrderHeaderRow :=
  { orderUID := o.orderUID
    trackNumber := o.trackNumber
    entry := o.entry
    locale := o.locale
    internalSignature := o.internalSignature
    customerID := o.customerID
    deliveryService := o.deliveryService
    shardkey := o.shardkey
    smID := o.smID
    dateCreated := o.dateCreated
    oofShard := o.oofShard }

/-- One row inserted by a single `tx.Exec` of the service layer: a header,
delivery, payment or item row (the delivery, payment and item tables key
their row by the owning `order_uid`). -/
inductive Row where
  | header (r : OrderHeaderRow)
  | delivery (orderUID : String) (d : Delivery)
  | payment (orderUID : String) (p : Payment)
  | item (orderUID : String) (it : Item)
  deriving Repr, DecidableEq

/-- The Durable Store: the four relational tables. -/
structure DB where
  orders : List OrderHeaderRow
  deliveries : List (String × Delivery)
  payments : List (String × Payment)
  items : List (String × Item)
  deriving Repr, DecidableEq

/-- The empty database. -/
def DB.empty : DB := ⟨[], [], [], []⟩

/-- Whether the `orders` table holds a header row for `uid`. -/
def DB.hasOrder (db : DB) (uid : String) : Bool :=
  db.orders.any fun r => r.orderUID == uid

/-- Applying one inserted row to the database (what commit does with each
pending insert of the transaction). -/
def applyRow (db : DB) : Row → DB
  | .header r => { db with orders := db.orders ++ [r] }
  | .delivery uid d => { db with deliveries := db.deliveries ++ [(uid, d)] }
  | .payment uid p => { db with payments := db.payments ++ [(uid, p)] }
  | .item uid it => { db with items := db.items ++ [(uid, it)] }

/-- Model of `tx.Commit`: apply the transaction's pending inserts to the database. -/
def commit (db : DB) (tx : List Row) : DB :=
  tx.foldl applyRow db

/-- Model of `orderService.ordersRepoInsertTx`: insert the order header row, or fail
when the oracle says this `Exec` fails. -/
def ordersRepoInsertTx (fails : Row → Bool) (tx : List Row) (o : Order) :
    Except String (List Row) :=
  let r := Row.header (headerRow o)
  if fails r then .error "insert order failed" else .ok (tx ++ [r])

/-- Model of `orderService.deliveriesRepoInsertTx`. -/
def deliveriesRepoInsertTx (fails : Row → Bool) (tx : List Row)
    (d : Delivery) (orderUID : String) : Except String (List Row) :=
  let r := Row.delivery orderUID d
  if fails r then .error "insert delivery failed" else .ok (tx ++ [r])

/-- Model of `orderService.paymentsRepoInsertTx`. -/
def paymentsRepoInsertTx (fails : Row → Bool) (tx : List Row)
    (p : Payment) (orderUID : String) : Except String (List Row) :=
  let r := Row.payment orderUID p
  if fails r then .error "insert payment failed" else .ok (tx ++ [r])

/-- Model of `orderService.itemsRepoInsertTx`: insert the item rows one by one,
stopping at the first failing `Exec`. -/
def itemsRepoInsertTx (fails : Row → Bool) (tx : List Row) :
    List Item → String → Except String (List Row)
  | [], _ => .ok tx
  | it :: rest, orderUID =>
    let r := Row.item orderUID it
    if fails r then .error "insert item failed"
    else itemsRepoInsertTx fails (tx ++ [r]) rest orderUID

/-- Model of `orderService.insertOrderData`: header, then delivery, then payment,
then all items, stopping at (and returning) the first failure. -/
def insertOrderData (fails : Row → Bool) (tx : List Row) (o : Order) :
    Except String (List Row) :=
  match ordersRepoInsertTx fails tx o with
  | .error e => .error e
  | .ok tx1 =>
    match deliveriesRepoInsertTx fails tx1 o.delivery o.orderUID with
    | .error e => .error e
    | .ok tx2 =>
      match paymentsRepoInsertTx fails tx2 o.payment o.orderUID with
      | .error e => .error e
      | .ok tx3 => itemsRepoInsertTx fails tx3 o.items o.orderUID

/-- The per-order loop body of `SaveBatch`, threading the transaction:
validate (skip invalid orders), normalize `DateCreated`, insert; the first
insert failure aborts the loop with its error. -/
def saveBatchLoop (fails : Row → Bool) (now : Nat) (tx : List Row) :
    List Order → Except String (List Row)
  | [] => .ok tx
  | o :: rest =>
    if (validateOrder (some o)).isSome then saveBatchLoop fails now tx rest
    else
      match insertOrderData fails tx (normalizeDate now o) with
      | .error e => .error e
      | .ok tx1 => saveBatchLoop fails now tx1 rest

/-- Model of `orderService.SaveBatch`: empty batches return immediately with `nil`
error; otherwise the whole batch runs in one transaction, which is rolled
back (database unchanged) when any insert fails, and committed otherwise.
Returns the database after the call together with the returned error. -/
def saveBatch (fails : Row → Bool) (now : Nat) (db : DB)
    (orders : List Order) : DB × Option String :=
  if orders.length = 0 then (db, none)
  else
    match saveBatchLoop fails now [] orders with
    | .error e => (db, some e)
    | .ok tx => (commit db tx, none)

/-- Model of `orderService.SaveOrder`: delegates to `SaveBatch` on the singleton
batch. -/
def saveOrder (fails : Row → Bool) (now : Nat) (db : DB) (o : Order) :
    DB × Option String :=
  saveBatch fails now db [o]

/-! ## In-memory cache (`internal/cache/cache.go`) -/

/-- Model of `OrderCache`: the `map[string]*model.Order` backing map, modelled as an
association list without duplicate keys (map assignment removes any
existing binding for the key and appends the new one). -/
abbrev Cache := List (String × Order)

/-- The empty cache produced by `NewOrderCache`. -/
def Cache.emptyCache : Cache := []

/-- Dropping any existing binding for a key (the overwriting half of a Go
map assignment). -/
def cacheRemoveKey : Cache → String → Cache
  | [], _ => []
  | p :: rest, uid =>
    if p.1 = uid then cacheRemoveKey rest uid
    else p :: cacheRemoveKey rest uid

/-- A raw map assignment `c.cache[uid] = o` (used by `LoadFromDB`, which
keys the entry by the uid it enumerated): any existing binding for the key
is replaced by the new one. -/
def cacheInsert (c : Cache) (uid : String) (o : Order) : Cache :=
  cacheRemoveKey c uid ++ [(uid, o)]

/-- Model of `OrderCache.Set`: add or overwrite the entry keyed by the order's
`OrderUID`. -/
def cacheSet (c : Cache) (o : Order) : Cache :=
  cacheInsert c o.orderUID o

/-- Model of `OrderCache.Get`: the entry for `uid`, or `none` (the Go nil) when the
key is absent. -/
def cacheGet (c : Cache) (uid : String) : Option Order :=
  (c.find? fun p => p.1 = uid).map fun p => p.2

/-- Model of `OrderCache.GetAll`: a freshly allocated list of all cached orders. -/
def getAll (c : Cache) : List Order :=
  c.map fun p => p.2

/-! ## Hydration (`OrderCache.LoadFromDB`) -/

/-- Model of `getAllOrderUIDs`: `SELECT order_uid FROM orders`. -/
def getAllOrderUIDs (db : DB) : List String :=
  db.orders.map fun r => r.orderUID

/-- The order reassembled from a header row (the columns `GetByID` selects
back into a `model.Order`, leaving delivery, payment and items at their
zero values until the caller fills them in). -/
def orderOfHeader (r : OrderHeaderRow) : Order :=
  { orderUID := r.orderUID
    trackNumber := r.trackNumber
    entry := r.entry
    delivery := ⟨"", "", "", "", "", "", ""⟩
    payment := ⟨"", "", "", "", 0, 0, "", 0, 0, 0⟩
    items := []
    locale := r.locale
    internalSignature := r.internalSignature
    customerID := r.customerID
    deliveryService := r.deliveryService
    shardkey := r.shardkey
    smID := r.smID
    dateCreated := r.dateCreated
    oofShard := r.oofShard }

/-- Model of `cache.loadFullOrder`: four reads assembling the aggregate.  The
header, delivery and payment reads fail when no row exists (`ErrNoRows`);
the items read returns the (possibly empty) list of item rows.  `readFails`
models an injected read failure for a uid (connection error, bad row). -/
def loadFullOrder (readFails : String → Bool) (db : DB) (uid : String) :
    Option Order :=
  if readFails uid then none
  else
    match db.orders.find? fun r => r.orderUID = uid with
    | none => none
    | some h =>
      match db.deliveries.find? fun p => p.1 = uid with
      | none => none
      | some d =>
        match db.payments.find? fun p => p.1 = uid with
        | none => none
        | some p =>
          some { orderOfHeader h with
                  delivery := d.2
                  payment := p.2
                  items := (db.items.filter fun q => q.1 = uid).map
                    fun q => q.2 }

/-- The per-uid loop of `LoadFromDB`: load the full order for each uid; a
failed load is skipped, a successful one is stored under that uid. -/
def loadFromDBLoop (readFails : String → Bool) (db : DB) (c : Cache) :
    List String → Cache
  | [] => c
  | uid :: rest =>
    match loadFullOrder readFails db uid with
    | none => loadFromDBLoop readFails db c rest
    | some o => loadFromDBLoop readFails db (cacheInsert c uid o) rest

/-- Model of `OrderCache.LoadFromDB`: enumerate all order uids (`uidsQueryFails`
models a failure of that initial query, the only error the method
returns), then best-effort load each one into the cache.  Returns the
cache after the call and the returned error. -/
def loadFromDB (readFails : String → Bool) (uidsQueryFails : Bool)
    (db : DB) (c : Cache) : Cache × Option String :=
  if uidsQueryFails then (c, some "query order uids failed")
  else (loadFromDBLoop readFails db c (getAllOrderUIDs db), none)

/-! ## Consumer loop (`internal/kafka/consumer.go`) -/

/-- The `batchSize` constant of `consumer.go`. -/
def batchSize : Nat := 1

/-- One inbound stream message after `json.Unmarshal`: `none` is a payload
that failed to decode (the message is skipped), `some o` decoded to the
order candidate `o`. -/
abbrev Message := Option Order

/-- The state threaded through `Consumer.Run`: the accumulated unsaved
batch (`orders` in the Go code), the database behind `SaveBatch`, and the
order cache. -/
structure ConsumerState where
  pending : List Order
  db : DB
  cache : Cache
  deriving DecidableEq

/-- The order object the consumer hands to `cache.Set`: the consumer caches
the same object it appended to the batch, and `SaveBatch` updates
`DateCreated` in place through that shared pointer when the order passes
validation (with `batchSize = 1` the just-read order is always part of the
batch that was just saved). -/
def consumerCachedView (now : Nat) (o : Order) : Order :=
  if (validateOrder (some o)).isSome then o else normalizeDate now o

/-- One iteration of `Consumer.Run` for one read message: decode (skip on
failure), append to the pending batch, save the batch once it reaches
`batchSize` — logging, not propagating, a `SaveBatch` error — and then
unconditionally `Set` the order into the cache. -/
def consumerStep (fails : Row → Bool) (now : Nat) (st : ConsumerState)
    (msg : Message) : ConsumerState :=
  match msg with
  | none => st
  | some order =>
    let pending := st.pending ++ [order]
    if batchSize ≤ pending.length then
      let saved := saveBatch fails now st.db pending
      { pending := []
        db := saved.1
        cache := cacheSet st.cache (consumerCachedView now order) }
    else
      { pending := pending
        db := st.db
        cache := cacheSet st.cache order }

/-- Model of `Consumer.Run` over a finite prefix of the stream. -/
def consumerRun (fails : Row → Bool) (now : Nat) (st : ConsumerState) :
    List Message → ConsumerState
  | [] => st
  | msg :: rest => consumerRun fails now (consumerStep fails now st msg) rest

/-! ## Operational trace semantics for cache snapshots

`GetAll` copies the map's values into a fresh slice under the read lock.
To state that the returned slice is a point-in-time snapshot — unaffected
by mutations performed after the call returned — we run the cache against
a trace of operations (writer `Set`s, hydration inserts, and `GetAll`
calls) and record the value each `GetAll` call hands to its caller. -/

/-- One call into the cache: a pipeline `Set`, a hydration insert, or a
reader's `GetAll`. -/
inductive CacheOp where
  | put (o : Order)
  | hydrate (uid : String) (o : Order)
  | list
  deriving DecidableEq

/-- The cache state after one operation (`GetAll` does not mutate). -/
def applyOp (c : Cache) : CacheOp → Cache
  | .put o => cacheSet c o
  | .hydrate uid o => cacheInsert c uid o
  | .list => c

/-- The cache state after a trace of operations. -/
def applyOps (c : Cache) (ops : List CacheOp) : Cache :=
  ops.foldl applyOp c

/-- The values successive `GetAll` calls in the trace return to their
callers, in trace order. -/
def snapshots (c : Cache) : List CacheOp → List (List Order)
  | [] => []
  | .list :: ops => getAll c :: snapshots c ops
  | .put o :: ops => snapshots (cacheSet c o) ops
  | .hydrate uid o :: ops => snapshots (cacheInsert c uid o) ops

/-! ## Concrete fixtures (from the repository's example message) -/

/-- The sample delivery of the end-to-end scenario message. -/
def testDelivery : Delivery :=
  ⟨"Test Testov", "+9720000000", "2639809", "Kiryat Mozkin",
   "Ploshad Mira 15", "Kraiot", "test@gmail.com"⟩

/-- The sample payment of the end-to-end scenario message. -/
def testPayment : Payment :=
  ⟨"b563feb7b2b84b6test", "", "USD", "wbpay", 1817, 1637907727, "alpha",
   1500, 317, 0⟩

/-- The sample item of the end-to-end scenario message. -/
def testItem : Item :=
  ⟨9934930, "WBILMTESTTRACK", 453, "ab4219087a764ae0btest", "Mascaras",
   30, "0", 317, 2389212, "Vivienne Sabo", 202⟩

/-- A valid sample order. -/
def testOrder : Order :=
  { orderUID := "b563feb7b2b84b6test"
    trackNumber := "WBILMTESTTRACK"
    entry := "WBIL"
    delivery := testDelivery
    payment := testPayment
    items := [testItem]
    locale := "en"
    internalSignature := ""
    customerID := "test"
    deliveryService := "meest"
    shardkey := "9"
    smID := 99
    dateCreated := 1637907727
    oofShard := "1" }

/-- A second valid sample order with a distinct uid. -/
def testOrder2 : Order :=
  { testOrder with orderUID := "secondtestorder", trackNumber := "TRACK2" }

/-- An invalid sample order: it owns no items. -/
def noItemsOrder : Order :=
  { testOrder with orderUID := "noitemsorder", items := [] }

/-- The all-succeeding insert oracle. -/
def noFail : Row → Bool := fun _ => false

/-- The insert oracle under which every `Exec` fails (first insert of a
batch fails immediately). -/
def failAll : Row → Bool := fun _ => true

/-- An insert oracle that fails exactly the header insert of
`testOrder2` — the second order of a two-order batch. -/
def failSecond : Row → Bool
  | .header r => r.orderUID == "secondtestorder"
  | _ => false

/-- A copy of `testOrder` with the same uid but a different track number. -/
def testOrderB : Order :=
  { testOrder with trackNumber := "WBILMTESTTRACK-B" }

/-- A valid sample order whose `date_created` is unset (the zero
timestamp). -/
def zeroDateOrder : Order :=
  { testOrder with orderUID := "zerodateorder", dateCreated := 0 }

/-- A store holding exactly the two persisted sample orders. -/
def db0 : DB := (saveBatch noFail 7 DB.empty [testOrder, testOrder2]).1

/-- The all-succeeding per-uid read oracle for hydration. -/
def noReadFail : String → Bool := fun _ => false

/-- A read oracle failing exactly the load of `testOrder2`. -/
def failReadSecond : String → Bool := fun uid => uid == "secondtestorder"

/-! ## Declarative descriptions of what `SaveBatch` inserts -/

/-- The rows `insertOrderData` issues for one order, in issue order:
header first, then delivery, then payment, then all items last. -/
def orderRows (o : Order) : List Row :=
  Row.header (headerRow o) :: Row.delivery o.orderUID o.delivery ::
    Row.payment o.orderUID o.payment ::
      o.items.map fun it => Row.item o.orderUID it

/-- The rows a failure-free `SaveBatch` run inserts for a batch: the
per-order rows of each order that passes validation (invalid orders
contribute nothing), normalized and in arrival order. -/
def batchRows (now : Nat) : List Order → List Row
  | [] => []
  | o :: rest =>
    if (validateOrder (some o)).isSome then batchRows now rest
    else orderRows (normalizeDate now o) ++ batchRows now rest

/-- The header rows among a transaction's pending inserts. -/
def headerRowsOf (tx : List Row) : List OrderHeaderRow :=
  tx.filterMap fun r =>
    match r with
    | .header h => some h
    | _ => none

/-! ## Supporting lemmas -/

theorem commit_nil (db : DB) : commit db [] = db := rfl

theorem orders_applyRow (db : DB) (r : Row) :
    (applyRow db r).orders = db.orders ++ headerRowsOf [r] := by
  cases r <;> simp [applyRow, headerRowsOf]

theorem orders_commit (db : DB) (tx : List Row) :
    (commit db tx).orders = db.orders ++ headerRowsOf tx := by
  induction tx generalizing db with
  | nil => simp [commit, headerRowsOf]
  | cons r rest ih =>
    have hstep : commit db (r :: rest) = commit (applyRow db r) rest := rfl
    rw [hstep, ih, orders_applyRow]
    cases r <;> simp [headerRowsOf]

theorem itemsRepoInsertTx_noFail (tx : List Row) (items : List Item)
    (uid : String) :
    itemsRepoInsertTx noFail tx items uid =
      .ok (tx ++ items.map fun it => Row.item uid it) := by
  induction items generalizing tx with
  | nil => simp [itemsRepoInsertTx]
  | cons it rest ih => simp [itemsRepoInsertTx, noFail, ih]

theorem insertOrderData_noFail (tx : List Row) (o : Order) :
    insertOrderData noFail tx o = .ok (tx ++ orderRows o) := by
  simp [insertOrderData, ordersRepoInsertTx, deliveriesRepoInsertTx,
    paymentsRepoInsertTx, noFail, itemsRepoInsertTx_noFail, orderRows]

theorem saveBatchLoop_noFail (now : Nat) (tx : List Row)
    (orders : List Order) :
    saveBatchLoop noFail now tx orders = .ok (tx ++ batchRows now orders) := by
  induction orders generalizing tx with
  | nil => simp [saveBatchLoop, batchRows]
  | cons o rest ih =>
    by_cases h : (validateOrder (some o)).isSome <;>
      simp [saveBatchLoop, batchRows, h, ih, insertOrderData_noFail]

theorem saveBatch_of_loop_error (fails : Row → Bool) (now : Nat) (db : DB)
    (orders : List Order) (e : String)
    (h : saveBatchLoop fails now [] orders = .error e) :
    saveBatch fails now db orders = (db, some e) := by
  cases orders with
  | nil => simp [saveBatchLoop] at h
  | cons o rest => simp [saveBatch, h]

theorem cacheInsert_cons_eq (p : String × Order) (rest : Cache)
    (uid : String) (o : Order) (h : p.1 = uid) :
    cacheInsert (p :: rest) uid o = cacheInsert rest uid o := by
  simp [cacheInsert, cacheRemoveKey, h]

theorem cacheInsert_cons_ne (p : String × Order) (rest : Cache)
    (uid : String) (o : Order) (h : ¬ p.1 = uid) :
    cacheInsert (p :: rest) uid o = p :: cacheInsert rest uid o := by
  simp [cacheInsert, cacheRemoveKey, h]

theorem cacheGet_insert_self (c : Cache) (uid : String) (o : Order) :
    cacheGet (cacheInsert c uid o) uid = some o := by
  induction c with
  | nil => simp [cacheInsert, cacheRemoveKey, cacheGet]
  | cons p rest ih =>
    by_cases h : p.1 = uid
    · rw [cacheInsert_cons_eq p rest uid o h]
      exact ih
    · rw [cacheInsert_cons_ne p rest uid o h]
      simpa [cacheGet, h] using ih

theorem cacheGet_insert_ne (c : Cache) (uid1 uid : String) (o : Order)
    (h : uid1 ≠ uid) :
    cacheGet (cacheInsert c uid1 o) uid = cacheGet c uid := by
  induction c with
  | nil => simp [cacheInsert, cacheRemoveKey, cacheGet, h]
  | cons p rest ih =>
    by_cases hp : p.1 = uid1
    · rw [cacheInsert_cons_eq p rest uid1 o hp, ih]
      have hne : ¬ p.1 = uid := by rw [hp]; exact h
      simp [cacheGet, hne]
    · rw [cacheInsert_cons_ne p rest uid1 o hp]
      by_cases hq : p.1 = uid
      · simp [cacheGet, hq]
      · simpa [cacheGet, hq] using ih

theorem loadFromDBLoop_get_none (readFails : String → Bool) (db : DB)
    (uid : String) (uids : List String) (c : Cache)
    (h : loadFullOrder readFails db uid = none) :
    cacheGet (loadFromDBLoop readFails db c uids) uid = cacheGet c uid := by
  induction uids generalizing c with
  | nil => rfl
  | cons u rest ih =>
    by_cases hu : u = uid
    · subst hu
      simp only [loadFromDBLoop, h]
      exact ih c
    · cases hl : loadFullOrder readFails db u with
      | none =>
        simp only [loadFromDBLoop, hl]
        exact ih c
      | some o =>
        simp only [loadFromDBLoop, hl]
        rw [ih, cacheGet_insert_ne _ _ _ _ hu]

theorem loadFromDBLoop_not_mem (readFails : String → Bool) (db : DB)
    (uid : String) (uids : List String) (c : Cache) (h : uid ∉ uids) :
    cacheGet (loadFromDBLoop readFails db c uids) uid = cacheGet c uid := by
  induction uids generalizing c with
  | nil => rfl
  | cons u rest ih =>
    have hu : u ≠ uid := fun he => h (by simp [he])
    have hr : uid ∉ rest := fun he => h (by simp [he])
    cases hl : loadFullOrder readFails db u with
    | none =>
      simp only [loadFromDBLoop, hl]
      exact ih c hr
    | some o =>
      simp only [loadFromDBLoop, hl]
      rw [ih _ hr, cacheGet_insert_ne _ _ _ _ hu]

theorem loadFromDBLoop_mem_some (readFails : String → Bool) (db : DB)
    (uid : String) (o : Order) (uids : List String) (c : Cache)
    (hmem : uid ∈ uids) (h : loadFullOrder readFails db uid = some o) :
    cacheGet (loadFromDBLoop readFails db c uids) uid = some o := by
  induction uids generalizing c with
  | nil => cases hmem
  | cons u rest ih =>
    by_cases hr : uid ∈ rest
    · cases hl : loadFullOrder readFails db u with
      | none =>
        simp only [loadFromDBLoop, hl]
        exact ih _ hr
      | some o1 =>
        simp only [loadFromDBLoop, hl]
        exact ih _ hr
    · have hu : u = uid := by
        rcases List.mem_cons.mp hmem with h1 | h2
        · exact h1.symm
        · exact absurd h2 hr
      subst hu
      simp only [loadFromDBLoop, h]
      rw [loadFromDBLoop_not_mem _ _ _ _ _ hr]
      exact cacheGet_insert_self _ _ _

theorem removeKey_eq_self_of_get_none (c : Cache) (uid : String)
    (h : cacheGet c uid = none) : cacheRemoveKey c uid = c := by
  induction c with
  | nil => rfl
  | cons p rest ih =>
    by_cases hp : p.1 = uid
    · simp [cacheGet, hp] at h
    · have hrest : cacheGet rest uid = none := by
        simpa [cacheGet, hp] using h
      simp [cacheRemoveKey, hp, ih hrest]

theorem length_insert_of_get_none (c : Cache) (uid : String) (o : Order)
    (h : cacheGet c uid = none) :
    (cacheInsert c uid o).length = c.length + 1 := by
  unfold cacheInsert
  rw [removeKey_eq_self_of_get_none c uid h]
  simp

theorem loadFromDBLoop_length (readFails : String → Bool) (db : DB)
    (uids : List String) (c : Cache) (hnd : uids.Nodup)
    (hall : ∀ uid ∈ uids, (loadFullOrder readFails db uid).isSome)
    (hfresh : ∀ uid ∈ uids, cacheGet c uid = none) :
    (loadFromDBLoop readFails db c uids).length = c.length + uids.length := by
  induction uids generalizing c with
  | nil => simp [loadFromDBLoop]
  | cons u rest ih =>
    obtain ⟨o, ho⟩ := Option.isSome_iff_exists.mp (hall u (by simp))
    have hfu : cacheGet c u = none := hfresh u (by simp)
    have hnd1 := List.nodup_cons.mp hnd
    have hfresh1 : ∀ uid ∈ rest, cacheGet (cacheInsert c u o) uid = none := by
      intro uid hm
      have hne : u ≠ uid := fun he => hnd1.1 (he ▸ hm)
      rw [cacheGet_insert_ne _ _ _ _ hne]
      exact hfresh uid (by simp [hm])
    simp only [loadFromDBLoop, ho]
    rw [ih _ hnd1.2 (fun uid hm => hall uid (List.mem_cons_of_mem u hm))
        hfresh1,
      length_insert_of_get_none _ _ _ hfu]
    simp [Nat.add_assoc, Nat.add_comm 1]

theorem getAll_length (c : Cache) : (getAll c).length = c.length := by
  simp [getAll]

theorem saveBatchLoop_all_invalid (fails : Row → Bool) (now : Nat)
    (tx : List Row) (orders : List Order)
    (h : ∀ o ∈ orders, (validateOrder (some o)).isSome) :
    saveBatchLoop fails now tx orders = .ok tx := by
  induction orders with
  | nil => rfl
  | cons o rest ih =>
    simp only [saveBatchLoop, h o (by simp), if_true]
    exact ih fun o1 hm => h o1 (List.mem_cons_of_mem o hm)

theorem headerRowsOf_orderRows (o : Order) :
    headerRowsOf (orderRows o) = [headerRow o] := by
  simp only [headerRowsOf, orderRows, List.filterMap_cons]
  induction o.items with
  | nil => rfl
  | cons it rest ih => simp [List.filterMap_cons]

/-! ## The claims -/

/-- Claim C1 — violated by the code: the consumer loop writes the decoded
order into the cache even when its batch's transactional persist failed.
With an oracle failing every insert, running the loop on one valid message
leaves the Durable Store empty — `SaveBatch` returned an error and rolled
the transaction back — yet `Get` on the order's uid returns the order, so
cache membership does not imply durability. -/
theorem consumer_caches_order_despite_failed_persist :
    (saveBatch failAll 42 DB.empty [testOrder]).2 =
      some "insert order failed" ∧
    (consumerRun failAll 42 ⟨[], DB.empty, Cache.emptyCache⟩
        [some testOrder]).db = DB.empty ∧
    cacheGet (consumerRun failAll 42 ⟨[], DB.empty, Cache.emptyCache⟩
        [some testOrder]).cache testOrder.orderUID = some testOrder :=
  ⟨rfl, rfl, rfl⟩

/-- Claim C2: if the transaction's insert sequence for a batch aborts with
an error — some header, delivery, payment or item insert failed — then
`SaveBatch` returns that error, the entire transaction is rolled back (the
database is exactly what it was before the call), and no order of the
batch, including orders whose rows were inserted earlier in the same
transaction, is present in the Durable Store afterwards (unless it was
already there before the batch). -/
theorem saveBatch_insert_failure_rolls_back_entire_batch
    (fails : Row → Bool) (now : Nat) (db : DB) (orders : List Order)
    (e : String) (h : saveBatchLoop fails now [] orders = .error e) :
    saveBatch fails now db orders = (db, some e) ∧
    ∀ o ∈ orders, db.hasOrder o.orderUID = false →
      (saveBatch fails now db orders).1.hasOrder o.orderUID = false := by
  have h1 := saveBatch_of_loop_error fails now db orders e h
  refine ⟨h1, fun o _ hab => ?_⟩
  rw [h1]
  exact hab

/-- Witness for C2: in the two-order batch `[testOrder, testOrder2]` only
the header insert of the second order fails; the call returns the error
and `testOrder` — whose rows had already been inserted inside the
transaction — is not in the store afterwards. -/
theorem saveBatch_insert_failure_rolls_back_entire_batch_witness :
    saveBatch failSecond 7 DB.empty [testOrder, testOrder2] =
      (DB.empty, some "insert order failed") ∧
    (saveBatch failSecond 7 DB.empty [testOrder, testOrder2]).1.hasOrder
      testOrder.orderUID = false := by
  have h := saveBatch_insert_failure_rolls_back_entire_batch failSecond 7
    DB.empty [testOrder, testOrder2] "insert order failed" rfl
  exact ⟨h.1, h.2 testOrder (by simp) rfl⟩

/-- Claim C3 — violated by the code: an order the Validator rejects (here
one owning no items) is indeed never inserted into the Durable Store, but
the consumer loop still puts it into the cache: after processing its
message the store is unchanged while `Get` on the rejected order's uid
returns it. -/
theorem consumer_caches_validator_rejected_order :
    validateOrder (some noItemsOrder) = some "order has no items" ∧
    (consumerRun noFail 42 ⟨[], DB.empty, Cache.emptyCache⟩
        [some noItemsOrder]).db = DB.empty ∧
    cacheGet (consumerRun noFail 42 ⟨[], DB.empty, Cache.emptyCache⟩
        [some noItemsOrder]).cache noItemsOrder.orderUID =
      some noItemsOrder :=
  ⟨rfl, rfl, rfl⟩

/-- Claim C4: hydration is best-effort and complete.  `LoadFromDB` (with a
successful uid enumeration) always returns the `nil` error; a uid whose
order fails to load is skipped, leaving its cache entry exactly as it was,
while every uid that loads successfully ends up cached; and when no
per-order read fails, hydrating a fresh cache from a store with `N`
distinct persisted order uids yields `len(cache.List()) == N`. -/
theorem hydration_best_effort_and_complete
    (readFails : String → Bool) (db : DB) (c : Cache) :
    (loadFromDB readFails false db c).2 = none ∧
    (∀ uid, loadFullOrder readFails db uid = none →
      cacheGet (loadFromDB readFails false db c).1 uid = cacheGet c uid) ∧
    (∀ uid o, loadFullOrder readFails db uid = some o →
      uid ∈ getAllOrderUIDs db →
      cacheGet (loadFromDB readFails false db c).1 uid = some o) ∧
    ((getAllOrderUIDs db).Nodup →
      (∀ uid ∈ getAllOrderUIDs db,
        (loadFullOrder readFails db uid).isSome) →
      c = Cache.emptyCache →
      (getAll (loadFromDB readFails false db c).1).length =
        db.orders.length) := by
  refine ⟨rfl, ?_, ?_, ?_⟩
  · intro uid h
    exact loadFromDBLoop_get_none readFails db uid _ c h
  · intro uid o h hm
    exact loadFromDBLoop_mem_some readFails db uid o _ c hm h
  · intro hnd hall hc
    subst hc
    show (getAll (loadFromDBLoop readFails db Cache.emptyCache
      (getAllOrderUIDs db))).length = db.orders.length
    rw [getAll_length,
      loadFromDBLoop_length readFails db (getAllOrderUIDs db)
        Cache.emptyCache hnd hall (fun uid _ => rfl)]
    simp [Cache.emptyCache, getAllOrderUIDs]

/-- Witness for C4: hydrating from the two-order store `db0` with the read
of `testOrder2` failing still succeeds and skips only that uid while
caching `testOrder`; hydrating with no read failures fills a fresh cache
with exactly 2 orders. -/
theorem hydration_best_effort_and_complete_witness :
    (loadFromDB failReadSecond false db0 Cache.emptyCache).2 = none ∧
    cacheGet (loadFromDB failReadSecond false db0 Cache.emptyCache).1
      "secondtestorder" = none ∧
    cacheGet (loadFromDB failReadSecond false db0 Cache.emptyCache).1
      testOrder.orderUID = some testOrder ∧
    (getAll (loadFromDB noReadFail false db0 Cache.emptyCache).1).length =
      2 := by
  have h1 := hydration_best_effort_and_complete failReadSecond db0
    Cache.emptyCache
  have h2 := hydration_best_effort_and_complete noReadFail db0
    Cache.emptyCache
  refine ⟨h1.1, ?_, ?_, ?_⟩
  · rw [h1.2.1 "secondtestorder" rfl]
    rfl
  · exact h1.2.2.1 testOrder.orderUID testOrder rfl (by decide)
  · rw [h2.2.2.2 (by decide) (by decide) rfl]
    rfl

/-- Claim C5: after `Put(o)`, `Get(o.order_uid)` returns `o`; and a second
`Put` of an order with the same uid completely overwrites the first —
`Get` then returns the second order in full, with no field taken from the
first. -/
theorem cache_put_get_roundtrip_and_full_overwrite :
    (∀ (c : Cache) (o : Order),
      cacheGet (cacheSet c o) o.orderUID = some o) ∧
    (∀ (c : Cache) (o o2 : Order), o2.orderUID = o.orderUID →
      cacheGet (cacheSet (cacheSet c o) o2) o.orderUID = some o2) := by
  refine ⟨fun c o => cacheGet_insert_self c o.orderUID o,
    fun c o o2 h => ?_⟩
  rw [cacheSet, h]
  exact cacheGet_insert_self _ _ _

/-- Witness for C5: the round trip on `testOrder` and the full overwrite
by `testOrderB`, which shares its uid but changes `track_number`. -/
theorem cache_put_get_roundtrip_and_full_overwrite_witness :
    cacheGet (cacheSet Cache.emptyCache testOrder) testOrder.orderUID =
      some testOrder ∧
    testOrderB.orderUID = testOrder.orderUID ∧
    cacheGet (cacheSet (cacheSet Cache.emptyCache testOrder) testOrderB)
      testOrder.orderUID = some testOrderB :=
  ⟨cache_put_get_roundtrip_and_full_overwrite.1 Cache.emptyCache testOrder,
   rfl,
   cache_put_get_roundtrip_and_full_overwrite.2 Cache.emptyCache testOrder
     testOrderB rfl⟩

/-- Claim C6: in a `SaveBatch` invocation with no failing inserts, each
invalid order in the batch is skipped without aborting the batch, the
remaining valid orders are persisted and the transaction commits with the
`nil` error; the committed rows are exactly, per valid order in arrival
order, its header row, then its delivery row, then its payment row, then
all its item rows last (`batchRows` / `orderRows`). -/
theorem saveBatch_skips_invalid_and_inserts_in_fixed_order
    (now : Nat) (db : DB) (orders : List Order) :
    saveBatch noFail now db orders =
      (commit db (batchRows now orders), none) := by
  cases orders with
  | nil => simp [saveBatch, batchRows, commit_nil]
  | cons o rest => simp [saveBatch, saveBatchLoop_noFail]

/-- Claim C7: for every valid order the persistence caller normalizes
`date_created` before the rows are inserted: the singleton batch commits
the rows of the normalized order, whose stored header carries `now`
exactly when the incoming `date_created` was the zero timestamp and the
incoming value unchanged otherwise. -/
theorem saveBatch_assigns_date_created_before_insert
    (now : Nat) (db : DB) (o : Order)
    (h : validateOrder (some o) = none) :
    saveBatch noFail now db [o] =
      (commit db (orderRows (normalizeDate now o)), none) ∧
    (saveBatch noFail now db [o]).1.orders =
      db.orders ++ [headerRow (normalizeDate now o)] ∧
    (headerRow (normalizeDate now o)).dateCreated =
      (if o.dateCreated = 0 then now else o.dateCreated) := by
  have h1 : saveBatch noFail now db [o] =
      (commit db (orderRows (normalizeDate now o)), none) := by
    simp [saveBatch, saveBatchLoop, h, insertOrderData_noFail]
  refine ⟨h1, ?_, ?_⟩
  · rw [h1]
    show (commit db (orderRows (normalizeDate now o))).orders = _
    rw [orders_commit, headerRowsOf_orderRows]
  · by_cases hz : o.dateCreated = 0 <;> simp [normalizeDate, headerRow, hz]

/-- Witness for C7: `zeroDateOrder` (valid, `date_created` unset) is
stored with `date_created = 424242`, while `testOrder` (already set) keeps
its own timestamp. -/
theorem saveBatch_assigns_date_created_before_insert_witness :
    validateOrder (some zeroDateOrder) = none ∧
    (headerRow (normalizeDate 424242 zeroDateOrder)).dateCreated =
      (if zeroDateOrder.dateCreated = 0 then 424242
       else zeroDateOrder.dateCreated) ∧
    (headerRow (normalizeDate 424242 testOrder)).dateCreated =
      (if testOrder.dateCreated = 0 then 424242
       else testOrder.dateCreated) :=
  ⟨rfl,
   (saveBatch_assigns_date_created_before_insert 424242 DB.empty
     zeroDateOrder rfl).2.2,
   (saveBatch_assigns_date_created_before_insert 424242 DB.empty
     testOrder rfl).2.2⟩

/-- Claim C8: `GetAll` hands its caller a point-in-time snapshot: in any
trace of cache operations, the value a `GetAll` call returns is exactly
the cache membership at the moment of the call (`getAll` of the state
reached by the preceding operations), and is independent of every
operation performed after the call returned. -/
theorem getAll_returns_point_in_time_snapshot
    (c : Cache) (pre post : List CacheOp) :
    snapshots c (pre ++ CacheOp.list :: post) =
      snapshots c pre ++ getAll (applyOps c pre) ::
        snapshots (applyOps c pre) post := by
  induction pre generalizing c with
  | nil => simp [snapshots, applyOps]
  | cons op rest ih =>
    cases op with
    | put o =>
      simpa [snapshots, applyOps, applyOp] using ih (cacheSet c o)
    | hydrate uid o =>
      simpa [snapshots, applyOps, applyOp] using ih (cacheInsert c uid o)
    | list =>
      simpa [snapshots, applyOps, applyOp] using ih c

/-- Claim C9: `SaveOrder` is exactly the singleton-batch case of
`SaveBatch`: for every insert oracle, time, database and order it returns
the same result and has the same effect on the store, namely the
singleton-batch behaviour — commit nothing when the order is invalid,
otherwise insert the normalized order's rows and commit, or roll back with
the first insert failure's error. -/
theorem saveOrder_is_singleton_saveBatch
    (fails : Row → Bool) (now : Nat) (db : DB) (o : Order) :
    saveOrder fails now db o = saveBatch fails now db [o] ∧
    saveBatch fails now db [o] =
      (if (validateOrder (some o)).isSome then (db, none)
       else
        match insertOrderData fails [] (normalizeDate now o) with
        | .error e => (db, some e)
        | .ok tx => (commit db tx, none)) := by
  refine ⟨rfl, ?_⟩
  by_cases h : (validateOrder (some o)).isSome
  · simp [saveBatch, saveBatchLoop, h, commit_nil]
  · simp only [saveBatch, saveBatchLoop, h, if_false, List.length_cons,
      List.length_nil, if_neg (by simp : ¬ (1 : Nat) = 0)]
    cases hi : insertOrderData fails [] (normalizeDate now o) with
    | error e => simp
    | ok tx => simp [saveBatchLoop]

/-- Claim C10: a batch containing no valid orders — empty, or with every
order failing validation — makes `SaveBatch` return the `nil` error and
leave the Durable Store unchanged; this is the same return value a fully
persisted batch produces. -/
theorem saveBatch_no_valid_orders_is_noop
    (fails : Row → Bool) (now : Nat) (db : DB) (orders : List Order)
    (h : ∀ o ∈ orders, (validateOrder (some o)).isSome) :
    saveBatch fails now db orders = (db, none) := by
  cases orders with
  | nil => simp [saveBatch]
  | cons o rest =>
    have hl := saveBatchLoop_all_invalid fails now [] (o :: rest) h
    simp [saveBatch, hl, commit_nil]

/-- Witness for C10: a singleton batch holding only the invalid
`noItemsOrder` is a no-op returning the `nil` error, even under the
all-failing insert oracle (no insert is ever attempted). -/
theorem saveBatch_no_valid_orders_is_noop_witness :
    (validateOrder (some noItemsOrder)).isSome = true ∧
    saveBatch failAll 7 DB.empty [noItemsOrder] = (DB.empty, none) := by
  refine ⟨rfl, saveBatch_no_valid_orders_is_noop failAll 7 DB.empty
    [noItemsOrder] ?_⟩
  intro o hm
  rw [List.mem_singleton.mp hm]
  rfl

end L0wb
